import Mathlib

/-!
# Verification of the libepoxy dispatch generator (`src/gen_dispatch.py`)

A shallow embedding of the resolution engine of the GL dispatch generator:
the data model (`GLFunction`, providers as (condition, loader, human_name)
string triples), alias resolution (`resolve_aliases`), the bootstrap override
(`fixup_bootstrap_function`), the provider-list merge and resolver emission
(`write_function_ptr_resolver`), and the dispatch-table slot / stub emission
(`write_source` / `write_dispatch_table_stub`).

Python dictionaries are modelled as lists of `GLFunction` records in
insertion order, with `lookupFn` as `dict[name]`; shared mutable objects
(`alias_exts` holding function objects, `alias_func` back-pointers) are
modelled by storing the function's `name` and looking it up in the current
function set, which is equivalent while function names are unique keys.
Condition and loader expressions are kept as the C-expression strings the
generator manipulates; their runtime evaluation is an opaque environment
(`String → Bool` for conditions, `String → Option Nat` for loader results,
`none` standing for a NULL pointer).
-/

/-- One provider of a function: the `(condition, loader, human_name)` tuple
appended by `GLFunction.add_provider` (gen_dispatch.py line 72-73). -/
structure Provider where
  condition : String
  loader : String
  human_name : String
deriving DecidableEq, Repr

/-- The fields of a `GLFunction` object relevant to the resolution engine
(gen_dispatch.py lines 31-61).  `alias_name` is the raw alias target string
from the registry, `alias_func` the back-pointer established by
`resolve_aliases` (stored here as the target's name), `alias_exts` the list
of functions aliasing this root (stored as their names, in append order). -/
structure GLFunction where
  name : String
  providers : List Provider
  alias_name : Option String
  alias_func : Option String
  alias_exts : List String
deriving DecidableEq, Repr

/-- Model of `Generator.functions`: a Python dict in insertion order, name → function.
The parser inserts each function under its own name, so `f.name` is the key. -/
abbrev FunctionSet := List GLFunction

/-- Model of `self.functions[n]` and `n in self.functions`: first record with that name. -/
def lookupFn (σ : FunctionSet) (n : String) : Option GLFunction :=
  σ.find? (fun f => f.name = n)

/-- Mutation of the single object stored under name `n` (all record updates
used below preserve the `name` field). -/
def updateFn (σ : FunctionSet) (n : String) (g : GLFunction → GLFunction) : FunctionSet :=
  σ.map (fun f => if f.name = n then g f else f)

/-- The dict's key list, in insertion order. -/
def namesOf (σ : FunctionSet) : List String :=
  σ.map (fun f => f.name)

/-- Model of `self.dlsym_loader.format(name)` (gen_dispatch.py line 92): the
formatted direct-symbol loader expression for a function name. -/
def dlsym_loader (n : String) : String :=
  "epoxy_dlsym(\x22" ++ n ++ "\x22)"

/-- Model of `Generator.fixup_bootstrap_function` (gen_dispatch.py lines 256-267):
if `name not in self.functions: return`; otherwise clear the function's
providers and add the single provider
`('true', dlsym_loader.format(func.name), 'always present')`. -/
def bootstrap_provider_update (f : GLFunction) : GLFunction :=
  { f with providers := [⟨"true", dlsym_loader f.name, "always present"⟩] }

def fixup_bootstrap_function (σ : FunctionSet) (name : String) : FunctionSet :=
  if (lookupFn σ name).isSome then
    updateFn σ name bootstrap_provider_update
  else σ

section LookupUpdateLemmas

theorem lookupFn_name_eq {σ : FunctionSet} {n : String} {f : GLFunction}
    (h : lookupFn σ n = some f) : f.name = n := by
  have := List.find?_some h
  simpa using this

theorem lookupFn_mem {σ : FunctionSet} {n : String} {f : GLFunction}
    (h : lookupFn σ n = some f) : f ∈ σ :=
  List.mem_of_find?_eq_some h

theorem lookupFn_updateFn (σ : FunctionSet) (n m : String)
    (g : GLFunction → GLFunction) (hg : ∀ f, (g f).name = f.name) :
    lookupFn (updateFn σ n g) m =
      (lookupFn σ m).map (fun f => if f.name = n then g f else f) := by
  induction σ with
  | nil => rfl
  | cons f σ ih =>
      simp only [updateFn, List.map_cons, lookupFn, List.find?_cons] at ih ⊢
      by_cases hfn : f.name = n
      · subst hfn
        by_cases hfm : f.name = m
        · subst hfm
          simp [hg f]
        · simp [hfm, hg f, ih]
      · by_cases hfm : f.name = m
        · subst hfm
          simp [hfn]
        · simp [hfn, hfm, ih]

theorem lookupFn_updateFn_ne (σ : FunctionSet) {n m : String}
    (g : GLFunction → GLFunction) (hg : ∀ f, (g f).name = f.name)
    (hnm : m ≠ n) :
    lookupFn (updateFn σ n g) m = lookupFn σ m := by
  rw [lookupFn_updateFn σ n m g hg]
  cases h : lookupFn σ m with
  | none => rfl
  | some f =>
      have : f.name = m := lookupFn_name_eq h
      simp [this, hnm]

theorem lookupFn_updateFn_self (σ : FunctionSet) (n : String)
    (g : GLFunction → GLFunction) (hg : ∀ f, (g f).name = f.name) :
    lookupFn (updateFn σ n g) n = (lookupFn σ n).map g := by
  rw [lookupFn_updateFn σ n n g hg]
  cases h : lookupFn σ n with
  | none => rfl
  | some f =>
      have : f.name = n := lookupFn_name_eq h
      simp [this]

theorem namesOf_updateFn (σ : FunctionSet) (n : String)
    (g : GLFunction → GLFunction) (hg : ∀ f, (g f).name = f.name) :
    namesOf (updateFn σ n g) = namesOf σ := by
  induction σ with
  | nil => rfl
  | cons f σ ih =>
      by_cases hfn : f.name = n
      · simpa [namesOf, updateFn, hfn, hg] using ih
      · simpa [namesOf, updateFn, hfn] using ih

theorem updateFn_updateFn (σ : FunctionSet) (n : String)
    (g g' : GLFunction → GLFunction) (hg : ∀ f, (g f).name = f.name) :
    updateFn (updateFn σ n g) n g' =
      σ.map (fun f => if f.name = n then g' (g f) else f) := by
  unfold updateFn
  rw [List.map_map]
  apply List.map_congr_left
  intro f _
  by_cases hfn : f.name = n
  · simp [Function.comp, hfn, hg]
  · simp [Function.comp, hfn]

end LookupUpdateLemmas

/-- Model of `PFN + name.upper()` (gen_dispatch.py line 34). -/
def ptr_type (n : String) : String :=
  "PFN" ++ n.toUpper

/-- Whether `pat` begins the character list `s`. -/
def chars_start_with : List Char → List Char → Bool
  | _, [] => true
  | [], _ :: _ => false
  | c :: cs, d :: ds => c = d && chars_start_with cs ds

/-- Whether `pat` occurs somewhere in the character list `s`. -/
def chars_contain (s pat : List Char) : Bool :=
  match s with
  | [] => pat.isEmpty
  | _ :: rest => chars_start_with s pat || chars_contain rest pat

/-- Python's `pat in s` substring test, used for `'glX' in func.name`
(gen_dispatch.py line 355). -/
def contains_substr (s pat : String) : Bool :=
  chars_contain s.data pat.data

/-- The local `providers` list of `write_function_ptr_resolver`
(gen_dispatch.py lines 361-367): the function's own providers appended in
order, then each aliasing function's providers appended in `alias_exts`
order.  `alias_exts` holds shared function objects in the source; here it
holds their names, resolved through the current function set (the `none`
branch is unreachable while every `alias_exts` entry is a key of the set). -/
def local_providers (σ : FunctionSet) (func : GLFunction) : List Provider :=
  let providers := func.providers.foldl (fun acc p => acc ++ [p]) []
  func.alias_exts.foldl
    (fun acc an =>
      match lookupFn σ an with
      | some alias_func => alias_func.providers.foldl (fun acc2 p => acc2 ++ [p]) acc
      | none => acc)
    providers

/-- The `global_loader` computed by gen_dispatch.py lines 374-377: scan all
providers, remembering the loader of each whose condition string is
`'true'` (so the last unconditional provider wins the scan). -/
def global_loader (providers : List Provider) : Option String :=
  providers.foldl (fun acc p => if p.condition = "true" then some p.loader else acc) none

/-- The value left in the loop variable `loader` after the
`for condition, loader, human_name in providers:` loop of line 375 has run:
the last provider's loader (`none` when the list is empty and the variable
stays unbound).  Line 380 emits `return {0};'.format(loader)` from this
leftover variable, not from `global_loader`. -/
def last_loop_loader (providers : List Provider) : Option String :=
  providers.foldl (fun _ p => some p.loader) none

/-- One line of generated C, abstracting the `outln` calls of
`write_function_ptr_resolver` (gen_dispatch.py lines 351-401); each
constructor corresponds to one `outln` format string. -/
inductive CLine where
  | decl_static (t : String)
  | decl_resolver (fname : String)
  | brace_open
  | autoinit_glx
  | autoinit_platform
  | blank
  | ret (expr : String)
  | if_cond (cond : String)
  | printf_no_provider (fname : String)
  | printf_desc (desc : String)
  | printf_unknown
  | abort_call
  | brace_close
deriving DecidableEq, Repr

/-- Model of `Generator.write_function_ptr_resolver` (gen_dispatch.py lines 351-401),
line for line.  When `global_loader` is set, line 380 emits a single
unconditional `return` of the leftover loop variable `loader`; otherwise an
`if (condition) return loader;` pair per provider.  The diagnostic block
(lines 391-397) enumerates `func.providers` — the function's own list, not
the merged local list — and prints `unknown` when that own list is empty. -/
def write_function_ptr_resolver (σ : FunctionSet) (func : GLFunction) : List CLine :=
  [CLine.decl_static (ptr_type func.name), CLine.decl_resolver func.name, CLine.brace_open]
  ++ (if contains_substr func.name "glX" then [CLine.autoinit_glx] else [CLine.autoinit_platform])
  ++ [CLine.blank]
  ++ (let providers := local_providers σ func
      match global_loader providers with
      | some _ => [CLine.ret ((last_loop_loader providers).getD "")]
      | none =>
          providers.foldl (fun acc p => acc ++ [CLine.if_cond p.condition, CLine.ret p.loader]) []
          ++ [CLine.blank])
  ++ [CLine.printf_no_provider func.name]
  ++ (if func.providers.length = 0 then [CLine.printf_unknown]
      else func.providers.foldl (fun acc p => acc ++ [CLine.printf_desc p.human_name]) [])
  ++ [CLine.abort_call, CLine.brace_close, CLine.blank]

/-- Outcome of one execution of a generated resolver body: `ret` a loader
call's result (`none` = the C NULL pointer), or print a diagnostic and
`abort()`. -/
inductive ResolverOutcome where
  | ret : Option Nat → ResolverOutcome
  | aborted : List String → ResolverOutcome
deriving DecidableEq, Repr

/-- First provider whose condition evaluates true under the environment:
the runtime effect of the emitted `if (cond) return loader;` chain. -/
def first_true (env : String → Bool) : List Provider → Option Provider
  | [] => none
  | p :: ps => if env p.condition then some p else first_true env ps

/-- The descriptions printed by the diagnostic block (gen_dispatch.py lines
392-396): `unknown` when `len(func.providers) == 0`, else each of
`func.providers`' human names. -/
def diagnostic_descs (func : GLFunction) : List String :=
  if func.providers.length = 0 then ["unknown"]
  else func.providers.map (fun p => p.human_name)

/-- C semantics of the resolver body emitted by
`write_function_ptr_resolver`, under an environment `env` giving each
condition expression's truth value and `ld` giving each loader
expression's result (`none` = NULL): the unconditional `return` when
`global_loader` was set (evaluating no condition), else the first
condition that holds returns its loader's unchecked result, else the
diagnostic is printed and `abort()` runs. -/
def resolver_run (σ : FunctionSet) (func : GLFunction) (env : String → Bool)
    (ld : String → Option Nat) : ResolverOutcome :=
  let providers := local_providers σ func
  match global_loader providers with
  | some _ => ResolverOutcome.ret (ld ((last_loop_loader providers).getD ""))
  | none =>
      match first_true env providers with
      | some p => ResolverOutcome.ret (ld p.loader)
      | none => ResolverOutcome.aborted (diagnostic_descs func)

/-- The `while alias_func.alias_name:` walk of `Generator.resolve_aliases`
(gen_dispatch.py lines 178-180), with explicit fuel: follow `alias_name`
links until a function with no alias name is reached and return its name.
`none` models both a `KeyError` (dangling target) and a walk that cycles
forever; a terminating walk visits at most `σ.length` distinct functions,
so fuel `σ.length + 1` is always sufficient for it. -/
def find_root (σ : FunctionSet) : Nat → String → Option String
  | 0, _ => none
  | fuel + 1, n =>
      match lookupFn σ n with
      | none => none
      | some f =>
          match f.alias_name with
          | none => some n
          | some t => find_root σ fuel t

/-- The object mutation of gen_dispatch.py lines 181-182: point the
processed function's `alias_name`/`alias_func` directly at the root. -/
def link_update (r : String) (f : GLFunction) : GLFunction :=
  { f with alias_name := some r, alias_func := some r }

/-- The object mutation of gen_dispatch.py line 183: append the processed
function to the root's `alias_exts`. -/
def ext_update (n : String) (f : GLFunction) : GLFunction :=
  { f with alias_exts := f.alias_exts ++ [n] }

/-- The function set after one aliased function `n` has been rewritten to
point at its root `r` and registered in `r`'s `alias_exts`. -/
def step_result (σ : FunctionSet) (n r : String) : FunctionSet :=
  updateFn (updateFn σ n (link_update r)) r (ext_update n)

/-- One iteration of the `for func in self.functions.values():` loop of
`Generator.resolve_aliases` (gen_dispatch.py lines 174-183): skip functions
without an alias name, otherwise walk to the root, rewrite `alias_name` and
`alias_func` to point directly at it, and append the function to the root's
`alias_exts`. -/
def resolve_aliases_step (σ : FunctionSet) (n : String) : Option FunctionSet :=
  match lookupFn σ n with
  | none => some σ
  | some f =>
      match f.alias_name with
      | none => some σ
      | some _ =>
          match find_root σ (σ.length + 1) n with
          | none => none
          | some r => some (step_result σ n r)

/-- Model of `Generator.resolve_aliases` (gen_dispatch.py lines 174-183): the loop
over the dict's values in insertion order (the dict's keys are not changed
during the loop, only the stored objects are mutated). -/
def resolve_aliases (σ : FunctionSet) : Option FunctionSet :=
  (namesOf σ).foldlM (fun σ' n => resolve_aliases_step σ' n) σ

/-- Model of `write_dispatch_table_stub` (gen_dispatch.py lines 403-408): the name
whose dispatch-table slot (and resolver) the public stub uses — the alias
target when `func.alias_name` is set, else the function's own name. -/
def stub_slot_name (func : GLFunction) : String :=
  match func.alias_name with
  | some an => an
  | none => func.name

/-- Model of `write_source` lines 444-449: one slot named after the function in
`struct dispatch_table` per function whose `alias_name` is not set. -/
def dispatch_table_slots (σ : FunctionSet) : List String :=
  (σ.filter (fun f => f.alias_name.isNone)).map (fun f => f.name)

/-- Model of `write_source` lines 457-459: a resolver is emitted exactly for the
functions whose `alias_func` is not set. -/
def resolver_names (σ : FunctionSet) : List String :=
  (σ.filter (fun f => f.alias_func.isNone)).map (fun f => f.name)

/-- Model of `GLFunction.add_alias` (gen_dispatch.py lines 75-81): register `ext` as
an alias of `self`, asserting that `ext` has no dependents of its own and
that `self` is not itself an alias; `none` models the `AssertionError`.
(`resolve_aliases` does not call this helper; it appends directly.) -/
def add_alias (self ext : GLFunction) : Option (GLFunction × GLFunction) :=
  if ext.alias_exts.isEmpty ∧ self.alias_func.isNone then
    some ({ self with alias_exts := self.alias_exts ++ [ext.name] },
          { ext with alias_func := some self.name })
  else
    none

section FoldAppendLemmas

theorem foldl_append_map {α β : Type} (f : β → List α) (ps : List β) (acc : List α) :
    ps.foldl (fun a p => a ++ f p) acc = acc ++ ps.flatMap f := by
  induction ps generalizing acc with
  | nil => simp
  | cons p ps ih => simp [ih]

theorem foldl_append_singleton {α : Type} (ps : List α) (acc : List α) :
    ps.foldl (fun a p => a ++ [p]) acc = acc ++ ps := by
  induction ps generalizing acc with
  | nil => simp
  | cons p ps ih => simp [ih]

theorem local_providers_eq (σ : FunctionSet) (func : GLFunction) :
    local_providers σ func =
      func.providers ++
        func.alias_exts.flatMap (fun an =>
          match lookupFn σ an with
          | some g => g.providers
          | none => []) := by
  unfold local_providers
  rw [foldl_append_singleton]
  have hstep : (fun (acc : List Provider) (an : String) =>
      match lookupFn σ an with
      | some alias_func => alias_func.providers.foldl (fun acc2 p => acc2 ++ [p]) acc
      | none => acc)
      = (fun (acc : List Provider) (an : String) =>
          acc ++ (match lookupFn σ an with
                  | some g => g.providers
                  | none => [])) := by
    funext acc an
    cases hl : lookupFn σ an with
    | none => simp
    | some g => simp [foldl_append_singleton]
  rw [hstep]
  rw [foldl_append_map (fun an =>
    match lookupFn σ an with
    | some g => g.providers
    | none => [])]
  simp

end FoldAppendLemmas

/- Concrete inputs used by the per-claim witnesses and counterexamples. -/

def c5P1 : Provider :=
  ⟨"epoxy_is_desktop_gl()", "epoxy_dlsym(\x22glFoo\x22)", "Desktop OpenGL 1.0"⟩

def c5P2 : Provider :=
  ⟨"epoxy_has_gl_extension(\x22GL_EXT_foo\x22)",
   "epoxy_get_proc_address(\x22glFoo\x22)", "GL extension GL_EXT_foo"⟩

def c5P3 : Provider :=
  ⟨"epoxy_has_gl_extension(\x22GL_EXT_bar\x22)",
   "epoxy_get_proc_address(\x22glFooEXT\x22)", "GL extension GL_EXT_bar"⟩

def c5root : GLFunction := ⟨"glFoo", [c5P1, c5P2], none, none, ["glFooEXT"]⟩

def c5alias : GLFunction := ⟨"glFooEXT", [c5P3], some "glFoo", some "glFoo", []⟩

def c5σ : FunctionSet := [c5root, c5alias]

/-- C5: for every root function, the merged dispatch provider list built by
`write_function_ptr_resolver` is exactly the root's own providers in their
original order followed by, for each aliasing function in discovery
(`alias_exts`) order, that alias's own providers in order; in particular a
root with providers [P1, P2] and one alias with providers [P3] merges to
exactly [P1, P2, P3]. -/
theorem merged_provider_list_is_root_then_aliases :
    (∀ (σ : FunctionSet) (func : GLFunction),
        local_providers σ func =
          func.providers ++
            func.alias_exts.flatMap (fun an =>
              match lookupFn σ an with
              | some g => g.providers
              | none => [])) ∧
    local_providers c5σ c5root = [c5P1, c5P2, c5P3] := by
  refine ⟨local_providers_eq, ?_⟩
  decide

def c7σ : FunctionSet :=
  [⟨"glGetString",
    [⟨"epoxy_is_desktop_gl()", "epoxy_get_proc_address(\x22glGetString\x22)",
      "Desktop OpenGL 1.0"⟩],
    none, none, []⟩]

/-- C7: every bootstrap name present in the function set ends, after the
override, with a provider list of length exactly 1, whose condition is the
constant `true` and whose loader is the direct dlsym lookup of the
function's name, regardless of the providers previously attached. -/
theorem bootstrap_override_forces_single_dlsym_provider
    (σ : FunctionSet) (name : String) (h : (lookupFn σ name).isSome) :
    ∃ f, lookupFn (fixup_bootstrap_function σ name) name = some f ∧
      f.providers = [⟨"true", dlsym_loader name, "always present"⟩] := by
  obtain ⟨f0, hf0⟩ := Option.isSome_iff_exists.mp h
  have hname : f0.name = name := lookupFn_name_eq hf0
  rw [fixup_bootstrap_function, if_pos h]
  rw [lookupFn_updateFn_self σ name bootstrap_provider_update (fun f => rfl)]
  rw [hf0]
  exact ⟨_, rfl, by simp [bootstrap_provider_update, hname]⟩

/-- Witness for C7 at a concrete set where glGetString carries a registry
provider. -/
theorem bootstrap_override_forces_single_dlsym_provider_witness :
    (lookupFn c7σ "glGetString").isSome ∧
    (∃ f, lookupFn (fixup_bootstrap_function c7σ "glGetString") "glGetString" = some f ∧
      f.providers = [⟨"true", dlsym_loader "glGetString", "always present"⟩]) :=
  ⟨by decide, bootstrap_override_forces_single_dlsym_provider c7σ "glGetString" (by decide)⟩

def c8σ : FunctionSet := [⟨"glFoo", [], none, none, []⟩]

/-- C8 counterexample: applying the bootstrap override with a name absent
from the declared set (here `glXGetProcAddress`, which `main` applies to
every input file) returns normally with the function set unchanged — lines
261-262 are a silent early `return`, so no `ConfigurationError` (nor any
other failure) occurs, contrary to the claim. -/
theorem c8_bootstrap_override_missing_name_silent :
    fixup_bootstrap_function c8σ "glXGetProcAddress" = c8σ := by decide

/-- C8 amended: applying the bootstrap override with a name that is not in
the declared function set is a silent no-op: the function set is returned
unchanged and no error is raised. -/
theorem bootstrap_override_missing_name_noop
    (σ : FunctionSet) (name : String) (h : lookupFn σ name = none) :
    fixup_bootstrap_function σ name = σ := by
  unfold fixup_bootstrap_function
  rw [h]
  rfl

/-- Witness for the amended C8 at a concrete set not containing the name. -/
theorem bootstrap_override_missing_name_noop_witness :
    lookupFn c8σ "glXGetProcAddress" = none ∧
    fixup_bootstrap_function c8σ "glXGetProcAddress" = c8σ :=
  ⟨by decide, bootstrap_override_missing_name_noop c8σ "glXGetProcAddress" (by decide)⟩

def c10σ : FunctionSet :=
  [⟨"glGetString",
    [⟨"epoxy_is_desktop_gl()", "epoxy_get_proc_address(\x22glGetString\x22)",
      "Desktop OpenGL 1.0"⟩],
    none, none, []⟩,
   ⟨"glOther", [⟨"c", "l", "h"⟩], none, none, []⟩]

/-- C10: the bootstrap override is idempotent — applying it twice to a name
present in the set yields exactly the state after applying it once, and a
single application leaves every other function's entry unchanged. -/
theorem bootstrap_override_idempotent
    (σ : FunctionSet) (name : String) (h : (lookupFn σ name).isSome) :
    fixup_bootstrap_function (fixup_bootstrap_function σ name) name
      = fixup_bootstrap_function σ name ∧
    ∀ m, m ≠ name →
      lookupFn (fixup_bootstrap_function σ name) m = lookupFn σ m := by
  obtain ⟨f0, hf0⟩ := Option.isSome_iff_exists.mp h
  have h1 : fixup_bootstrap_function σ name = updateFn σ name bootstrap_provider_update := by
    rw [fixup_bootstrap_function, if_pos h]
  constructor
  · rw [h1]
    have h2 : (lookupFn (updateFn σ name bootstrap_provider_update) name).isSome := by
      rw [lookupFn_updateFn_self σ name bootstrap_provider_update (fun f => rfl), hf0]
      rfl
    rw [fixup_bootstrap_function, if_pos h2]
    rw [updateFn_updateFn σ name bootstrap_provider_update bootstrap_provider_update (fun f => rfl)]
    apply List.map_congr_left
    intro f _
    by_cases hfn : f.name = name
    · simp [hfn, bootstrap_provider_update]
    · simp [hfn]
  · intro m hm
    rw [h1]
    exact lookupFn_updateFn_ne σ bootstrap_provider_update (fun f => rfl) hm

section ResolverLemmas

theorem global_loader_ne_nil {ps : List Provider} {l : String}
    (h : global_loader ps = some l) : ps ≠ [] := by
  intro hnil
  subst hnil
  simp [global_loader] at h

theorem last_loop_loader_mem (ps : List Provider) (hne : ps ≠ []) :
    ∃ p ∈ ps, last_loop_loader ps = some p.loader := by
  have key : ∀ (qs : List Provider) (acc : Option String), qs ≠ [] →
      ∃ p ∈ qs, qs.foldl (fun _ q => some q.loader) acc = some p.loader := by
    intro qs
    induction qs with
    | nil => intro acc hx; exact absurd rfl hx
    | cons p qs ih =>
        intro acc _
        cases qs with
        | nil => exact ⟨p, by simp, rfl⟩
        | cons q rs =>
            obtain ⟨r, hr, he⟩ := ih (some p.loader) (by simp)
            exact ⟨r, by simp [List.mem_cons] at hr ⊢; tauto, he⟩
  exact key ps none hne

theorem first_true_mem {env : String → Bool} {ps : List Provider} {p : Provider}
    (h : first_true env ps = some p) : p ∈ ps := by
  induction ps with
  | nil => simp [first_true] at h
  | cons q qs ih =>
      by_cases hc : env q.condition
      · simp [first_true, hc] at h
        simp [h]
      · simp [first_true, hc] at h
        exact List.mem_cons_of_mem q (ih h)

/-- The diagnostic-enumeration lines among the emitted C lines. -/
def is_diag_line : CLine → Bool
  | CLine.printf_desc _ => true
  | CLine.printf_unknown => true
  | _ => false

theorem filter_diag_cond_chain (ps : List Provider) :
    (ps.flatMap (fun p => [CLine.if_cond p.condition, CLine.ret p.loader])).filter
      is_diag_line = [] := by
  induction ps with
  | nil => rfl
  | cons p ps ih =>
      rw [List.flatMap_cons, List.filter_append, ih]
      rfl

theorem filter_diag_desc_chain (ps : List Provider) :
    (ps.flatMap (fun p => [CLine.printf_desc p.human_name])).filter is_diag_line
      = ps.map (fun p => CLine.printf_desc p.human_name) := by
  induction ps with
  | nil => rfl
  | cons p ps ih =>
      rw [List.flatMap_cons, List.filter_append, ih, List.map_cons]
      rfl

end ResolverLemmas

section AliasResolutionLemmas

theorem lookupFn_isSome_iff (σ : FunctionSet) (m : String) :
    (lookupFn σ m).isSome ↔ m ∈ namesOf σ := by
  rw [lookupFn, List.find?_isSome]
  constructor
  · rintro ⟨f, hf, hp⟩
    have he : f.name = m := by simpa using hp
    exact he ▸ List.mem_map_of_mem (fun x => x.name) hf
  · intro h
    obtain ⟨f, hf, he⟩ := List.mem_map.mp h
    exact ⟨f, hf, by simpa using he⟩

theorem lookupFn_of_mem_nodup {σ : FunctionSet} (hnd : (namesOf σ).Nodup)
    {f : GLFunction} (hf : f ∈ σ) : lookupFn σ f.name = some f := by
  induction σ with
  | nil => cases hf
  | cons g σ ih =>
      have hnd' : (namesOf σ).Nodup := (List.nodup_cons.mp hnd).2
      rcases List.mem_cons.mp hf with hfg | hfs
      · subst hfg
        simp [lookupFn, List.find?_cons]
      · have hmem : f.name ∈ namesOf σ := List.mem_map_of_mem (fun x => x.name) hfs
        have hne : g.name ≠ f.name := by
          intro he
          apply (List.nodup_cons.mp hnd).1
          show (fun x => x.name) g ∈ List.map (fun x => x.name) σ
          simp only [he]
          exact hmem
        simpa [lookupFn, List.find?_cons, hne] using ih hnd' hfs

theorem name_inj_of_nodup {σ : FunctionSet} (hnd : (namesOf σ).Nodup)
    {f g : GLFunction} (hf : f ∈ σ) (hg : g ∈ σ) (he : f.name = g.name) :
    f = g :=
  List.inj_on_of_nodup_map hnd hf hg he

theorem find_root_mono (σ : FunctionSet) :
    ∀ {a b : Nat} {n r : String}, a ≤ b →
      find_root σ a n = some r → find_root σ b n = some r := by
  intro a
  induction a with
  | zero => intro b n r _ h; simp [find_root] at h
  | succ a ih =>
      intro b n r hab h
      obtain ⟨b', rfl⟩ : ∃ b', b = b' + 1 :=
        ⟨b - 1, by omega⟩
      unfold find_root at h ⊢
      cases hl : lookupFn σ n with
      | none => simp [hl] at h
      | some f =>
          simp only [hl] at h ⊢
          cases ha : f.alias_name with
          | none => simpa [ha] using h
          | some t =>
              simp only [ha] at h ⊢
              exact ih (by omega) h

theorem find_root_det {σ : FunctionSet} {a b : Nat} {n x y : String}
    (hx : find_root σ a n = some x) (hy : find_root σ b n = some y) : x = y := by
  have hx' := find_root_mono σ (Nat.le_max_left a b) hx
  have hy' := find_root_mono σ (Nat.le_max_right a b) hy
  rw [hx'] at hy'
  exact Option.some_inj.mp hy'

theorem find_root_is_root {σ : FunctionSet} :
    ∀ {fuel : Nat} {n r : String}, find_root σ fuel n = some r →
      ∃ g, lookupFn σ r = some g ∧ g.alias_name = none := by
  intro fuel
  induction fuel with
  | zero => intro n r h; simp [find_root] at h
  | succ fuel ih =>
      intro n r h
      unfold find_root at h
      cases hl : lookupFn σ n with
      | none => simp [hl] at h
      | some f =>
          simp only [hl] at h
          cases ha : f.alias_name with
          | none =>
              simp only [ha] at h
              obtain rfl : n = r := Option.some_inj.mp h
              exact ⟨f, hl, ha⟩
          | some t =>
              simp only [ha] at h
              exact ih h

theorem link_update_name (r : String) (f : GLFunction) :
    (link_update r f).name = f.name := rfl

theorem ext_update_name (n : String) (f : GLFunction) :
    (ext_update n f).name = f.name := rfl

theorem namesOf_step_result (σ : FunctionSet) (n r : String) :
    namesOf (step_result σ n r) = namesOf σ := by
  unfold step_result
  rw [namesOf_updateFn _ _ _ (ext_update_name n),
      namesOf_updateFn _ _ _ (link_update_name r)]

theorem length_step_result (σ : FunctionSet) (n r : String) :
    (step_result σ n r).length = σ.length := by
  have h := namesOf_step_result σ n r
  have h1 : (namesOf (step_result σ n r)).length = (step_result σ n r).length :=
    List.length_map _ _
  have h2 : (namesOf σ).length = σ.length := List.length_map _ _
  rw [← h1, h, h2]

theorem lookup_step_result_other (σ : FunctionSet) {n r m : String}
    (hmn : m ≠ n) (hmr : m ≠ r) :
    lookupFn (step_result σ n r) m = lookupFn σ m := by
  unfold step_result
  rw [lookupFn_updateFn_ne _ _ (ext_update_name n) hmr,
      lookupFn_updateFn_ne _ _ (link_update_name r) hmn]

theorem lookup_step_result_at_n (σ : FunctionSet) {n r : String} (hnr : n ≠ r) :
    lookupFn (step_result σ n r) n = (lookupFn σ n).map (link_update r) := by
  unfold step_result
  rw [lookupFn_updateFn_ne _ _ (ext_update_name n) hnr,
      lookupFn_updateFn_self _ _ _ (link_update_name r)]

theorem lookup_step_result_at_r (σ : FunctionSet) {n r : String} (hnr : n ≠ r) :
    lookupFn (step_result σ n r) r = (lookupFn σ r).map (ext_update n) := by
  unfold step_result
  rw [lookupFn_updateFn_self _ _ _ (ext_update_name n),
      lookupFn_updateFn_ne _ _ (link_update_name r) (Ne.symm hnr)]

/-- Unfolding equation for `find_root` at positive fuel. -/
theorem find_root_succ (σ : FunctionSet) (fuel : Nat) (n : String) :
    find_root σ (fuel + 1) n =
      match lookupFn σ n with
      | none => none
      | some f =>
          match f.alias_name with
          | none => some n
          | some t => find_root σ fuel t := rfl

/-- Path compression preserves every walk's result: rewriting the processed
function `n` to point directly at its root `r` (and appending to `r`'s
`alias_exts`, which no walk reads) does not change the root any name
reaches. -/
theorem find_root_step_result {σ : FunctionSet} {n r : String} {fn : GLFunction}
    (hn : lookupFn σ n = some fn) (hsome : fn.alias_name.isSome)
    {fuel₀ : Nat} (hr : find_root σ fuel₀ n = some r) :
    ∀ {fuel : Nat} {m s : String}, find_root σ fuel m = some s →
      find_root (step_result σ n r) fuel m = some s := by
  obtain ⟨g, hg, hgroot⟩ := find_root_is_root hr
  have hnr : n ≠ r := by
    intro he
    rw [he, hg] at hn
    have he2 : fn = g := (Option.some_inj.mp hn).symm
    rw [he2, hgroot] at hsome
    simp at hsome
  intro fuel
  induction fuel with
  | zero => intro m s h; simp [find_root] at h
  | succ fuel ih =>
      intro m s h
      rw [find_root_succ] at h
      rw [find_root_succ]
      by_cases hmn : m = n
      · subst hmn
        obtain ⟨t, ht⟩ := Option.isSome_iff_exists.mp hsome
        simp only [hn, ht] at h
        have hs : s = r := find_root_det (show find_root σ (fuel + 1) m = some s by
          rw [find_root_succ]
          simp only [hn, ht]
          exact h) hr
        subst hs
        rw [lookup_step_result_at_n σ hnr, hn]
        cases fuel with
        | zero => simp [find_root] at h
        | succ fuel₂ =>
            simp only [Option.map_some', link_update]
            rw [find_root_succ]
            rw [lookup_step_result_at_r σ hnr, hg]
            simp [ext_update, hgroot]
      · by_cases hmr : m = r
        · subst hmr
          simp only [hg, hgroot] at h
          rw [lookup_step_result_at_r σ hnr, hg]
          simpa [ext_update, hgroot] using h
        · rw [lookup_step_result_other σ hmn hmr]
          cases hl : lookupFn σ m with
          | none => simp [hl] at h
          | some f =>
              simp only [hl] at h ⊢
              cases ha : f.alias_name with
              | none => simpa [ha] using (by simpa [ha] using h : some m = some s)
              | some t =>
                  simp only [ha] at h ⊢
                  exact ih h

end AliasResolutionLemmas

/-- The root originally reachable from `n` in the input set. -/
def orig_root (σ₀ : FunctionSet) (n : String) : Option String :=
  find_root σ₀ (σ₀.length + 1) n

/-- Whether the input set's function named `n` carries an alias link. -/
def orig_aliased (σ₀ : FunctionSet) (n : String) : Bool :=
  match lookupFn σ₀ n with
  | some f => f.alias_name.isSome
  | none => false

/-- Well-formed parser output: unique names, `alias_exts` and `alias_func`
not yet populated (the parser never sets them), and every alias chain
reaching a root inside the set (no dangling target, no cycle). -/
abbrev wf_input (σ₀ : FunctionSet) : Prop :=
  (namesOf σ₀).Nodup ∧
  (∀ f ∈ σ₀, f.alias_exts = []) ∧
  (∀ f ∈ σ₀, f.alias_func = none) ∧
  (∀ f ∈ σ₀, f.alias_name.isSome = true → (orig_root σ₀ f.name).isSome = true)

/-- Loop invariant of `resolve_aliases` after the names in `done` have been
processed: keys unchanged; alias/root status of every entry unchanged;
every original walk still reaches its original root; processed aliased
entries point (both fields) directly at their original root; unprocessed
entries have untouched alias fields; and every entry's `alias_exts` lists
exactly the processed aliased names whose original root it is, in
processing order. -/
def loop_inv (σ₀ : FunctionSet) (done : List String) (σ : FunctionSet) : Prop :=
  namesOf σ = namesOf σ₀ ∧
  (∀ m f₀ f, lookupFn σ₀ m = some f₀ → lookupFn σ m = some f →
      f.alias_name.isSome = f₀.alias_name.isSome) ∧
  (∀ m s, orig_root σ₀ m = some s → find_root σ (σ₀.length + 1) m = some s) ∧
  (∀ m ∈ done, ∀ f₀ f, lookupFn σ₀ m = some f₀ → lookupFn σ m = some f →
      f₀.alias_name.isSome = true →
      f.alias_name = orig_root σ₀ m ∧ f.alias_func = orig_root σ₀ m) ∧
  (∀ m, m ∉ done → ∀ f₀ f, lookupFn σ₀ m = some f₀ → lookupFn σ m = some f →
      f.alias_name = f₀.alias_name ∧ f.alias_func = f₀.alias_func) ∧
  (∀ m f, lookupFn σ m = some f →
      f.alias_exts = done.filter (fun k =>
        orig_aliased σ₀ k && decide (orig_root σ₀ k = some m)))

theorem foldlM_opt_cons (f : FunctionSet → String → Option FunctionSet)
    (s : FunctionSet) (a : String) (l : List String) :
    (a :: l).foldlM f s = (f s a).bind (fun s' => l.foldlM f s') := rfl

/-- The main induction over the `resolve_aliases` loop. -/
theorem resolve_aliases_fold (σ₀ : FunctionSet) (hwf : wf_input σ₀) :
    ∀ (todo done : List String) (σ : FunctionSet),
      namesOf σ₀ = done ++ todo →
      loop_inv σ₀ done σ →
      ∃ σ', (todo.foldlM (fun σ'' k => resolve_aliases_step σ'' k) σ) = some σ' ∧
        loop_inv σ₀ (done ++ todo) σ' := by
  intro todo
  induction todo with
  | nil =>
      intro done σ _ hinv
      exact ⟨σ, rfl, by simpa using hinv⟩
  | cons n todo ih =>
      intro done σ hnames hinv
      obtain ⟨hA, hB, hC, hD, hE, hF⟩ := hinv
      have hmem₀ : n ∈ namesOf σ₀ := by rw [hnames]; simp
      have hmemσ : n ∈ namesOf σ := by rw [hA]; exact hmem₀
      obtain ⟨f, hfl⟩ := Option.isSome_iff_exists.mp ((lookupFn_isSome_iff σ n).mpr hmemσ)
      obtain ⟨f₀, hf0l⟩ := Option.isSome_iff_exists.mp ((lookupFn_isSome_iff σ₀ n).mpr hmem₀)
      have hnd : (done ++ n :: todo).Nodup := hnames ▸ hwf.1
      have hn_not_done : n ∉ done := fun hmem =>
        List.disjoint_of_nodup_append hnd hmem (List.mem_cons_self n todo)
      have hEn := hE n hn_not_done f₀ f hf0l hfl
      have hlen : σ.length = σ₀.length := by
        have h1 : (namesOf σ).length = σ.length := List.length_map _ _
        have h2 : (namesOf σ₀).length = σ₀.length := List.length_map _ _
        rw [← h1, hA, h2]
      have hnames' : namesOf σ₀ = (done ++ [n]) ++ todo := by
        rw [hnames]; simp
      cases ha0 : f₀.alias_name with
      | none =>
          have haf : f.alias_name = none := by rw [hEn.1, ha0]
          have hstep : resolve_aliases_step σ n = some σ := by
            unfold resolve_aliases_step
            rw [hfl]
            simp only [haf]
          have hinv' : loop_inv σ₀ (done ++ [n]) σ := by
            refine ⟨hA, hB, hC, ?_, ?_, ?_⟩
            · intro m hm f₀' f' h0 h1 hsome'
              rcases List.mem_append.mp hm with hm | hm
              · exact hD m hm f₀' f' h0 h1 hsome'
              · have hmn : m = n := by simpa using hm
                subst hmn
                rw [hf0l] at h0
                obtain rfl : f₀ = f₀' := Option.some_inj.mp h0
                rw [ha0] at hsome'
                simp at hsome'
            · intro m hm f₀' f' h0 h1
              exact hE m (fun hc => hm (List.mem_append.mpr (Or.inl hc))) f₀' f' h0 h1
            · intro m fm hfm
              rw [hF m fm hfm, List.filter_append]
              have hone : List.filter (fun k =>
                  orig_aliased σ₀ k && decide (orig_root σ₀ k = some m)) [n] = [] := by
                simp [orig_aliased, hf0l, ha0]
              rw [hone, List.append_nil]
          obtain ⟨σ', hfold, hinv''⟩ := ih (done ++ [n]) σ hnames' hinv'
          refine ⟨σ', ?_, ?_⟩
          · rw [foldlM_opt_cons, hstep]
            simpa using hfold
          · simpa using hinv''
      | some t =>
          have haf : f.alias_name = some t := by rw [hEn.1, ha0]
          have hroot0 : (orig_root σ₀ n).isSome = true := by
            have hf0mem := lookupFn_mem hf0l
            have hname : f₀.name = n := lookupFn_name_eq hf0l
            have := hwf.2.2.2 f₀ hf0mem (by rw [ha0]; rfl)
            rwa [hname] at this
          obtain ⟨r, hr0⟩ := Option.isSome_iff_exists.mp hroot0
          have hrσ : find_root σ (σ₀.length + 1) n = some r := hC n r hr0
          have hstep : resolve_aliases_step σ n = some (step_result σ n r) := by
            unfold resolve_aliases_step
            rw [hfl]
            simp only [haf]
            rw [hlen, hrσ]
          obtain ⟨g, hg, hgroot⟩ := find_root_is_root hrσ
          have hsomeσ : f.alias_name.isSome = true := by rw [haf]; rfl
          have hnr : n ≠ r := by
            intro he
            rw [he, hg] at hfl
            obtain rfl : g = f := Option.some_inj.mp hfl
            rw [hgroot] at hsomeσ
            simp at hsomeσ
          have hlk_n : lookupFn (step_result σ n r) n = some (link_update r f) := by
            rw [lookup_step_result_at_n σ hnr, hfl]
            rfl
          have hlk_r : lookupFn (step_result σ n r) r = some (ext_update n g) := by
            rw [lookup_step_result_at_r σ hnr, hg]
            rfl
          have hinv' : loop_inv σ₀ (done ++ [n]) (step_result σ n r) := by
            refine ⟨?_, ?_, ?_, ?_, ?_, ?_⟩
            · rw [namesOf_step_result]; exact hA
            · intro m f₀' f' h0 h1
              by_cases hmn : m = n
              · subst hmn
                rw [hlk_n] at h1
                obtain rfl : link_update r f = f' := Option.some_inj.mp h1
                rw [hf0l] at h0
                obtain rfl : f₀ = f₀' := Option.some_inj.mp h0
                simp [link_update, ha0]
              · by_cases hmr : m = r
                · subst hmr
                  rw [hlk_r] at h1
                  obtain rfl : ext_update n g = f' := Option.some_inj.mp h1
                  have := hB m f₀' g h0 hg
                  simpa [ext_update] using this
                · rw [lookup_step_result_other σ hmn hmr] at h1
                  exact hB m f₀' f' h0 h1
            · intro m s hms
              exact find_root_step_result hfl hsomeσ hrσ (hC m s hms)
            · intro m hm f₀' f' h0 h1 hsome'
              rcases List.mem_append.mp hm with hm | hm
              · have hmn : m ≠ n := fun he => hn_not_done (he ▸ hm)
                by_cases hmr : m = r
                · subst hmr
                  rw [hlk_r] at h1
                  obtain rfl : ext_update n g = f' := Option.some_inj.mp h1
                  have hold := hD m hm f₀' g h0 hg hsome'
                  simpa [ext_update] using hold
                · rw [lookup_step_result_other σ hmn hmr] at h1
                  exact hD m hm f₀' f' h0 h1 hsome'
              · have hmn : m = n := by simpa using hm
                subst hmn
                rw [hlk_n] at h1
                obtain rfl : link_update r f = f' := Option.some_inj.mp h1
                constructor
                · show (link_update r f).alias_name = orig_root σ₀ m
                  rw [hr0]
                  rfl
                · show (link_update r f).alias_func = orig_root σ₀ m
                  rw [hr0]
                  rfl
            · intro m hm f₀' f' h0 h1
              have hmn : m ≠ n := fun he =>
                hm (by rw [he]; exact List.mem_append.mpr (Or.inr (by simp)))
              have hm' : m ∉ done := fun hc => hm (List.mem_append.mpr (Or.inl hc))
              by_cases hmr : m = r
              · subst hmr
                rw [hlk_r] at h1
                obtain rfl : ext_update n g = f' := Option.some_inj.mp h1
                have := hE m hm' f₀' g h0 hg
                simpa [ext_update] using this
              · rw [lookup_step_result_other σ hmn hmr] at h1
                exact hE m hm' f₀' f' h0 h1
            · intro m f' h1
              by_cases hmn : m = n
              · subst hmn
                rw [hlk_n] at h1
                obtain rfl : link_update r f = f' := Option.some_inj.mp h1
                have hold := hF m f hfl
                rw [List.filter_append]
                have hone : List.filter (fun k =>
                    orig_aliased σ₀ k && decide (orig_root σ₀ k = some m)) [m] = [] := by
                  simp [orig_aliased, hf0l, ha0, hr0]
                  exact fun h => hnr h.symm
                show (link_update r f).alias_exts = _
                rw [hone, List.append_nil]
                exact hold
              · by_cases hmr : m = r
                · subst hmr
                  rw [hlk_r] at h1
                  obtain rfl : ext_update n g = f' := Option.some_inj.mp h1
                  have hold := hF m g hg
                  rw [List.filter_append]
                  have hone : List.filter (fun k =>
                      orig_aliased σ₀ k && decide (orig_root σ₀ k = some m)) [n] = [n] := by
                    simp [orig_aliased, hf0l, ha0, hr0]
                  rw [hone]
                  show g.alias_exts ++ [n] = _
                  rw [hold]
                · rw [lookup_step_result_other σ hmn hmr] at h1
                  have hold := hF m f' h1
                  rw [List.filter_append]
                  have hone : List.filter (fun k =>
                      orig_aliased σ₀ k && decide (orig_root σ₀ k = some m)) [n] = [] := by
                    simp [orig_aliased, hf0l, ha0, hr0]
                    exact fun h => hmr h.symm
                  rw [hone, List.append_nil]
                  exact hold
          obtain ⟨σ', hfold, hinv''⟩ := ih (done ++ [n]) (step_result σ n r) hnames' hinv'
          refine ⟨σ', ?_, ?_⟩
          · rw [foldlM_opt_cons, hstep]
            simpa using hfold
          · simpa using hinv''

/-- The invariant holds before any name is processed. -/
theorem loop_inv_init (σ₀ : FunctionSet) (hwf : wf_input σ₀) :
    loop_inv σ₀ [] σ₀ := by
  refine ⟨rfl, ?_, ?_, ?_, ?_, ?_⟩
  · intro m f₀ f h0 h1
    rw [h0] at h1
    rw [Option.some_inj.mp h1]
  · intro m s hms
    exact hms
  · intro m hm
    simp at hm
  · intro m _ f₀ f h0 h1
    rw [h0] at h1
    rw [Option.some_inj.mp h1]
    exact ⟨rfl, rfl⟩
  · intro m f h1
    simpa using hwf.2.1 f (lookupFn_mem h1)

/-- The two records found under the same key coincide. -/
theorem lookupFn_det {σ : FunctionSet} {m : String} {f g : GLFunction}
    (hf : lookupFn σ m = some f) (hg : lookupFn σ m = some g) : f = g := by
  rw [hf] at hg
  exact Option.some_inj.mp hg

def c6σ : FunctionSet :=
  [⟨"glA", [], none, none, []⟩,
   ⟨"glB", [], some "glA", none, []⟩,
   ⟨"glC", [], some "glB", none, []⟩]

/-- C6: on every well-formed input (unique names, parser-fresh alias
fields, every alias chain reaching a root in the set), `resolve_aliases`
succeeds and produces links of length exactly one: every aliased function's
`alias_name` and `alias_func` point directly at its original chain's true
root, every alias target is itself a root (`alias_name = none`), and each
function's `alias_exts` counts every transitively-aliasing function exactly
once (and nothing else). -/
theorem alias_reducer_flattens_chains (σ₀ : FunctionSet) (hwf : wf_input σ₀) :
    ∃ σ', resolve_aliases σ₀ = some σ' ∧
      (∀ f ∈ σ', ∀ r, f.alias_name = some r →
          ∃ g ∈ σ', g.name = r ∧ g.alias_name = none) ∧
      (∀ f ∈ σ', f.alias_name.isSome = true →
          f.alias_name = orig_root σ₀ f.name ∧ f.alias_func = f.alias_name) ∧
      (∀ g ∈ σ', ∀ k, g.alias_exts.count k =
          (if orig_aliased σ₀ k = true ∧ orig_root σ₀ k = some g.name then 1 else 0)) := by
  obtain ⟨σ', hfold, hinv⟩ :=
    resolve_aliases_fold σ₀ hwf (namesOf σ₀) [] σ₀ (by simp) (loop_inv_init σ₀ hwf)
  obtain ⟨hA, hB, hC, hD, hE, hF⟩ := hinv
  have hnd' : (namesOf σ').Nodup := by rw [hA]; exact hwf.1
  have hDone : ∀ m, m ∈ namesOf σ₀ → m ∈ [] ++ namesOf σ₀ := by simp
  refine ⟨σ', ?_, ?_, ?_, ?_⟩
  · unfold resolve_aliases
    exact hfold
  · intro f hf r hr
    have hlf : lookupFn σ' f.name = some f := lookupFn_of_mem_nodup hnd' hf
    have hmem0 : f.name ∈ namesOf σ₀ := by
      rw [← hA]
      exact List.mem_map_of_mem (fun x => x.name) hf
    obtain ⟨f₀, h0⟩ := Option.isSome_iff_exists.mp ((lookupFn_isSome_iff σ₀ f.name).mpr hmem0)
    have hsome0 : f₀.alias_name.isSome = true := by
      rw [← hB f.name f₀ f h0 hlf, hr]
      rfl
    have hDf := hD f.name (hDone f.name hmem0) f₀ f h0 hlf hsome0
    have hroot : orig_root σ₀ f.name = some r := by rw [← hDf.1, hr]
    obtain ⟨g₀, hg0, hg0root⟩ := find_root_is_root hroot
    have hrmem0 : r ∈ namesOf σ₀ := (lookupFn_isSome_iff σ₀ r).mp (by rw [hg0]; rfl)
    have hrmem' : r ∈ namesOf σ' := by rw [hA]; exact hrmem0
    obtain ⟨g, hlg⟩ := Option.isSome_iff_exists.mp ((lookupFn_isSome_iff σ' r).mpr hrmem')
    have hgnone : g.alias_name = none := by
      have := hB r g₀ g hg0 hlg
      rw [hg0root] at this
      cases hga : g.alias_name with
      | none => rfl
      | some x => rw [hga] at this; simp at this
    exact ⟨g, lookupFn_mem hlg, lookupFn_name_eq hlg, hgnone⟩
  · intro f hf hsome
    have hlf : lookupFn σ' f.name = some f := lookupFn_of_mem_nodup hnd' hf
    have hmem0 : f.name ∈ namesOf σ₀ := by
      rw [← hA]
      exact List.mem_map_of_mem (fun x => x.name) hf
    obtain ⟨f₀, h0⟩ := Option.isSome_iff_exists.mp ((lookupFn_isSome_iff σ₀ f.name).mpr hmem0)
    have hsome0 : f₀.alias_name.isSome = true := by
      rw [← hB f.name f₀ f h0 hlf]
      exact hsome
    have hDf := hD f.name (hDone f.name hmem0) f₀ f h0 hlf hsome0
    exact ⟨hDf.1, by rw [hDf.1, hDf.2]⟩
  · intro g hg k
    have hlg : lookupFn σ' g.name = some g := lookupFn_of_mem_nodup hnd' hg
    have hFg := hF g.name g hlg
    rw [hFg]
    by_cases hp : (orig_aliased σ₀ k && decide (orig_root σ₀ k = some g.name)) = true
    · have hp' := hp
      rw [Bool.and_eq_true] at hp'
      have hkmem : k ∈ namesOf σ₀ := by
        apply (lookupFn_isSome_iff σ₀ k).mp
        cases hlk : lookupFn σ₀ k with
        | none => rw [orig_aliased, hlk] at hp'; simp at hp'
        | some fk => rfl
      have hmemf : k ∈ List.filter (fun k =>
          orig_aliased σ₀ k && decide (orig_root σ₀ k = some g.name))
          ([] ++ namesOf σ₀) := by
        rw [List.mem_filter]
        exact ⟨by simpa using hkmem, hp⟩
      rw [List.count_eq_one_of_mem (by simpa using hwf.1.filter _) (by simpa using hmemf)]
      rw [if_pos ⟨hp'.1, of_decide_eq_true hp'.2⟩]
    · have hnmem : k ∉ List.filter (fun k =>
          orig_aliased σ₀ k && decide (orig_root σ₀ k = some g.name))
          ([] ++ namesOf σ₀) := by
        intro hc
        exact hp (List.mem_filter.mp hc).2
      rw [List.count_eq_zero_of_not_mem hnmem]
      rw [if_neg]
      intro ⟨h1, h2⟩
      exact hp (by rw [Bool.and_eq_true]; exact ⟨h1, decide_eq_true h2⟩)

/-- Witness for C6 on a concrete chain glC → glB → glA of length 2. -/
theorem alias_reducer_flattens_chains_witness :
    wf_input c6σ ∧
    (∃ σ', resolve_aliases c6σ = some σ' ∧
      (∀ f ∈ σ', ∀ r, f.alias_name = some r →
          ∃ g ∈ σ', g.name = r ∧ g.alias_name = none) ∧
      (∀ f ∈ σ', f.alias_name.isSome = true →
          f.alias_name = orig_root c6σ f.name ∧ f.alias_func = f.alias_name) ∧
      (∀ g ∈ σ', ∀ k, g.alias_exts.count k =
          (if orig_aliased c6σ k = true ∧ orig_root c6σ k = some g.name then 1 else 0))) :=
  ⟨by decide, alias_reducer_flattens_chains c6σ (by decide)⟩

def c2σ : FunctionSet :=
  [⟨"glRoot", [], none, none, []⟩,
   ⟨"glMid", [], some "glRoot", none, []⟩,
   ⟨"glLeaf", [], some "glMid", none, []⟩]

/-- C2 counterexample: on an alias-of-an-alias input (glLeaf aliases glMid;
glMid itself aliases glRoot and so ends with a non-empty `alias_exts` on
its root while chains exist), `resolve_aliases` does not fail: it returns
normally, flattening both functions onto glRoot.  The asserting guard lives
only in `GLFunction.add_alias`, which `resolve_aliases` never calls (line
183 appends directly). -/
theorem c2_alias_of_alias_accepted :
    resolve_aliases c2σ =
      some [⟨"glRoot", [], none, none, ["glMid", "glLeaf"]⟩,
            ⟨"glMid", [], some "glRoot", some "glRoot", []⟩,
            ⟨"glLeaf", [], some "glRoot", some "glRoot", []⟩] := by
  rfl

/-- C2 amended: on every well-formed input — explicitly including inputs
with alias-of-an-alias chains — the Alias Reducer silently succeeds,
flattening every chain; it never raises an error. -/
theorem c2_amended_alias_reducer_never_fails (σ₀ : FunctionSet)
    (hwf : wf_input σ₀) : (resolve_aliases σ₀).isSome = true := by
  obtain ⟨σ', hfold, _⟩ :=
    resolve_aliases_fold σ₀ hwf (namesOf σ₀) [] σ₀ (by simp) (loop_inv_init σ₀ hwf)
  unfold resolve_aliases
  rw [hfold]
  rfl

/-- Witness for the amended C2 on the alias-of-an-alias input. -/
theorem c2_amended_alias_reducer_never_fails_witness :
    wf_input c2σ ∧ (resolve_aliases c2σ).isSome = true :=
  ⟨by decide, c2_amended_alias_reducer_never_fails c2σ (by decide)⟩

/-- The function's alias target, when set, names a root of the set. -/
def alias_target_is_root (σ : FunctionSet) (f : GLFunction) : Bool :=
  match f.alias_name with
  | none => true
  | some r =>
      match lookupFn σ r with
      | some g => g.alias_name.isNone
      | none => false

/-- A canonicalized function set, as `write_source` receives it after
`resolve_aliases`: unique names, `alias_func` mirroring `alias_name`, and
every alias target being a root present in the set. -/
abbrev Canonical (σ : FunctionSet) : Prop :=
  (namesOf σ).Nodup ∧
  (∀ f ∈ σ, f.alias_func = f.alias_name) ∧
  (∀ f ∈ σ, alias_target_is_root σ f = true)

def c9root : GLFunction :=
  ⟨"glA", [⟨"epoxy_is_desktop_gl()", "epoxy_dlsym(\x22glA\x22)", "Desktop OpenGL 1.0"⟩],
   none, none, ["glB"]⟩

def c9alias : GLFunction :=
  ⟨"glB", [⟨"epoxy_has_gl_extension(\x22GL_EXT_b\x22)",
    "epoxy_get_proc_address(\x22glB\x22)", "GL extension GL_EXT_b"⟩],
   some "glA", some "glA", []⟩

def c9σ : FunctionSet := [c9root, c9alias]

/-- C9: on a canonicalized set, `write_source` emits exactly one dispatch
slot per root function (the slot list is exactly the root names, without
duplicates) and none for any alias; every alias's call-through stub
consults the same slot as its root (the root's name) and calls the
resolver of that same name; and resolvers are emitted exactly for the slot
owners. -/
theorem one_slot_per_root_shared_with_aliases (σ : FunctionSet)
    (h : Canonical σ) :
    (dispatch_table_slots σ).Nodup ∧
    (∀ f ∈ σ, f.alias_name = none → f.name ∈ dispatch_table_slots σ) ∧
    (∀ f ∈ σ, f.alias_name.isSome = true → f.name ∉ dispatch_table_slots σ) ∧
    (∀ f ∈ σ, stub_slot_name f ∈ dispatch_table_slots σ) ∧
    (∀ f ∈ σ, ∀ r, f.alias_name = some r → ∀ g, lookupFn σ r = some g →
        stub_slot_name f = g.name ∧ stub_slot_name g = g.name ∧
        g.alias_name = none) ∧
    resolver_names σ = dispatch_table_slots σ := by
  obtain ⟨hnd, hmirror, hroots⟩ := h
  have hslot_mem : ∀ f ∈ σ, f.alias_name = none → f.name ∈ dispatch_table_slots σ := by
    intro f hf hfa
    unfold dispatch_table_slots
    refine List.mem_map_of_mem (fun x => x.name) (List.mem_filter.mpr ⟨hf, ?_⟩)
    show f.alias_name.isNone = true
    rw [hfa]
    rfl
  refine ⟨?_, hslot_mem, ?_, ?_, ?_, ?_⟩
  · unfold dispatch_table_slots
    have hsub : ((σ.filter (fun f => f.alias_name.isNone)).map (fun f => f.name)).Sublist
        (σ.map (fun f => f.name)) :=
      (List.filter_sublist σ).map (fun f => f.name)
    exact hnd.sublist hsub
  · intro f hf hfa hcontra
    unfold dispatch_table_slots at hcontra
    obtain ⟨g, hgmem, hge⟩ := List.mem_map.mp hcontra
    have hgσ : g ∈ σ := (List.mem_filter.mp hgmem).1
    have hgnone : g.alias_name = none := by
      have := (List.mem_filter.mp hgmem).2
      simpa using this
    have hgf : g = f := name_inj_of_nodup hnd hgσ hf hge
    rw [hgf] at hgnone
    rw [hgnone] at hfa
    simp at hfa
  · intro f hf
    cases hfa : f.alias_name with
    | none =>
        have hs : stub_slot_name f = f.name := by simp [stub_slot_name, hfa]
        rw [hs]
        exact hslot_mem f hf hfa
    | some r =>
        have hs : stub_slot_name f = r := by simp [stub_slot_name, hfa]
        have hat := hroots f hf
        simp only [alias_target_is_root, hfa] at hat
        cases hlr : lookupFn σ r with
        | none => rw [hlr] at hat; simp at hat
        | some g =>
            rw [hlr] at hat
            simp only [Option.isNone_iff_eq_none] at hat
            rw [hs, ← lookupFn_name_eq hlr]
            exact hslot_mem g (lookupFn_mem hlr) hat
  · intro f hf r hfa g hlr
    have hgname : g.name = r := lookupFn_name_eq hlr
    have hs : stub_slot_name f = r := by simp [stub_slot_name, hfa]
    have hat := hroots f hf
    simp only [alias_target_is_root, hfa, hlr, Option.isNone_iff_eq_none] at hat
    refine ⟨by rw [hs, hgname], ?_, hat⟩
    simp [stub_slot_name, hat]
  · unfold resolver_names dispatch_table_slots
    congr 1
    apply List.filter_congr
    intro f hf
    rw [hmirror f hf]

/-- Witness for C9 on a concrete root/alias pair. -/
theorem one_slot_per_root_shared_with_aliases_witness :
    Canonical c9σ ∧
    (dispatch_table_slots c9σ).Nodup ∧
    c9root.name ∈ dispatch_table_slots c9σ ∧
    c9alias.name ∉ dispatch_table_slots c9σ ∧
    stub_slot_name c9alias ∈ dispatch_table_slots c9σ ∧
    (stub_slot_name c9alias = c9root.name ∧ stub_slot_name c9root = c9root.name ∧
      c9root.alias_name = none) ∧
    resolver_names c9σ = dispatch_table_slots c9σ :=
  ⟨by decide,
   (one_slot_per_root_shared_with_aliases c9σ (by decide)).1,
   (one_slot_per_root_shared_with_aliases c9σ (by decide)).2.1 c9root (by decide) (by decide),
   (one_slot_per_root_shared_with_aliases c9σ (by decide)).2.2.1 c9alias (by decide) (by decide),
   (one_slot_per_root_shared_with_aliases c9σ (by decide)).2.2.2.1 c9alias (by decide),
   (one_slot_per_root_shared_with_aliases c9σ (by decide)).2.2.2.2.1 c9alias (by decide)
     "glA" (by decide) c9root (by decide),
   (one_slot_per_root_shared_with_aliases c9σ (by decide)).2.2.2.2.2⟩

def c1P_true : Provider := ⟨"true", "epoxy_dlsym(\x22glGetString\x22)", "always present"⟩

def c1P_ext : Provider :=
  ⟨"epoxy_has_gl_extension(\x22GL_EXT_string\x22)",
   "epoxy_get_proc_address(\x22glGetStringEXT\x22)", "GL extension GL_EXT_string"⟩

def c1root : GLFunction := ⟨"glGetString", [c1P_true], none, none, ["glGetStringEXT"]⟩

def c1alias : GLFunction :=
  ⟨"glGetStringEXT", [c1P_ext], some "glGetString", some "glGetString", []⟩

def c1σ : FunctionSet := [c1root, c1alias]

def c1env : String → Bool := fun _ => false

def c1ld : String → Option Nat :=
  fun l => if l = "epoxy_dlsym(\x22glGetString\x22)" then some 1 else some 2

/-- C1 (code slip, gen_dispatch.py line 380): the merged list holds the
unconditional provider first, so `global_loader` is its loader and the
emitted body evaluates no condition — but the single `return` formats the
leftover loop variable `loader` (the LAST provider's loader) instead of
`global_loader`, so resolution returns the last provider's loader, not the
unconditional one, contradicting the claim and the code's own comment at
lines 369-373 ("just use that one if available"). -/
theorem c1_unconditional_branch_returns_last_provider_loader :
    global_loader (local_providers c1σ c1root) = some c1P_true.loader ∧
    write_function_ptr_resolver c1σ c1root =
      [CLine.decl_static (ptr_type "glGetString"), CLine.decl_resolver "glGetString",
       CLine.brace_open, CLine.autoinit_platform, CLine.blank,
       CLine.ret c1P_ext.loader,
       CLine.printf_no_provider "glGetString", CLine.printf_desc "always present",
       CLine.abort_call, CLine.brace_close, CLine.blank] ∧
    CLine.ret c1P_true.loader ∉ write_function_ptr_resolver c1σ c1root ∧
    resolver_run c1σ c1root c1env c1ld = ResolverOutcome.ret (some 2) := by
  refine ⟨rfl, rfl, by decide, rfl⟩

def c3alias_provider : Provider :=
  ⟨"epoxy_has_gl_extension(\x22GL_EXT_bar\x22)",
   "epoxy_get_proc_address(\x22glBarEXT\x22)", "GL extension GL_EXT_bar"⟩

def c3root : GLFunction := ⟨"glBar", [], none, none, ["glBarEXT"]⟩

def c3alias : GLFunction := ⟨"glBarEXT", [c3alias_provider], some "glBar", some "glBar", []⟩

def c3σ : FunctionSet := [c3root, c3alias]

/-- C3 counterexample: root `glBar` has no providers of its own but its
alias contributes one, so the merged provider list is nonempty — yet the
emitted diagnostic is the placeholder `unknown` (the code tests
`len(func.providers)`, the root's OWN list, at line 392) and the alias
provider's description is never printed, contradicting "enumerates the
description of every provider in the merged provider list (placeholder only
when the function has no known providers at all)". -/
theorem c3_diagnostic_ignores_alias_providers :
    local_providers c3σ c3root = [c3alias_provider] ∧
    diagnostic_descs c3root = ["unknown"] ∧
    CLine.printf_unknown ∈ write_function_ptr_resolver c3σ c3root ∧
    CLine.printf_desc c3alias_provider.human_name ∉ write_function_ptr_resolver c3σ c3root := by
  refine ⟨rfl, rfl, by decide, by decide⟩

/-- C3 amended: when no merged provider is unconditional and every merged
condition evaluates false, the resolver prints the diagnostic and aborts
without returning any value — but the diagnostic enumerates only the
function's OWN providers' descriptions, printing `unknown` exactly when the
own list is empty, even if aliases contribute providers to the merged
list. -/
theorem c3_amended_abort_diagnostic_enumerates_own_providers
    (σ : FunctionSet) (func : GLFunction) (env : String → Bool)
    (ld : String → Option Nat)
    (h1 : global_loader (local_providers σ func) = none)
    (h2 : first_true env (local_providers σ func) = none) :
    resolver_run σ func env ld = ResolverOutcome.aborted (diagnostic_descs func) ∧
    (write_function_ptr_resolver σ func).filter is_diag_line =
      (if func.providers.length = 0 then [CLine.printf_unknown]
       else func.providers.map (fun p => CLine.printf_desc p.human_name)) ∧
    CLine.abort_call ∈ write_function_ptr_resolver σ func := by
  refine ⟨?_, ?_, ?_⟩
  · simp only [resolver_run, h1, h2]
  · unfold write_function_ptr_resolver
    simp only [h1]
    rw [foldl_append_map (fun (p : Provider) => [CLine.if_cond p.condition, CLine.ret p.loader])]
    rw [foldl_append_map (fun (p : Provider) => [CLine.printf_desc p.human_name])]
    by_cases hglx : contains_substr func.name "glX" <;>
      by_cases hlen : func.providers.length = 0 <;>
        simp [hglx, hlen, List.filter_append, is_diag_line,
          filter_diag_cond_chain, filter_diag_desc_chain]
  · unfold write_function_ptr_resolver
    by_cases hglx : contains_substr func.name "glX" <;>
      by_cases hlen : func.providers.length = 0 <;>
        cases hgl : global_loader (local_providers σ func) <;>
          simp [hglx, hlen, hgl]

def c3wf : GLFunction :=
  ⟨"glQux", [⟨"epoxy_glx_version() >= 14", "epoxy_get_proc_address(\x22glQux\x22)",
    "GLX 14"⟩], none, none, []⟩

def c3wσ : FunctionSet := [c3wf]

def c3wenv : String → Bool := fun _ => false

def c3wld : String → Option Nat := fun _ => none

/-- Witness for the amended C3 at a one-provider function whose condition
is false under the environment. -/
theorem c3_amended_abort_diagnostic_witness :
    global_loader (local_providers c3wσ c3wf) = none ∧
    first_true c3wenv (local_providers c3wσ c3wf) = none ∧
    (resolver_run c3wσ c3wf c3wenv c3wld = ResolverOutcome.aborted (diagnostic_descs c3wf) ∧
     (write_function_ptr_resolver c3wσ c3wf).filter is_diag_line =
       (if c3wf.providers.length = 0 then [CLine.printf_unknown]
        else c3wf.providers.map (fun p => CLine.printf_desc p.human_name)) ∧
     CLine.abort_call ∈ write_function_ptr_resolver c3wσ c3wf) :=
  ⟨by decide, by decide,
   c3_amended_abort_diagnostic_enumerates_own_providers c3wσ c3wf c3wenv c3wld
     (by decide) (by decide)⟩

def c4f : GLFunction :=
  ⟨"glBaz",
   [⟨"epoxy_is_desktop_gl()", "epoxy_get_proc_address(\x22glBaz\x22)",
     "Desktop OpenGL 3.0"⟩],
   none, none, []⟩

def c4σ : FunctionSet := [c4f]

def c4env : String → Bool := fun c => c == "epoxy_is_desktop_gl()"

def c4ld : String → Option Nat := fun _ => none

/-- C4 counterexample: the provider's condition holds but its loader fails
to find the symbol (returns NULL); the generated resolver returns that NULL
unchecked to the call-through stub (which stores it in the slot) instead of
terminating, contradicting "whenever the resolver returns, the returned
address is valid". -/
theorem c4_resolver_returns_null_on_loader_failure :
    resolver_run c4σ c4f c4env c4ld = ResolverOutcome.ret none := by
  rfl

/-- C4 amended: the resolver never fabricates an address — whatever it
returns is exactly the result of some merged provider's loader, unchecked
and possibly NULL; the process terminates (abort) only on the
no-provider-selected path. -/
theorem c4_amended_resolver_returns_selected_loader_result
    (σ : FunctionSet) (func : GLFunction) (env : String → Bool)
    (ld : String → Option Nat) (a : Option Nat)
    (h : resolver_run σ func env ld = ResolverOutcome.ret a) :
    ∃ p ∈ local_providers σ func, a = ld p.loader := by
  unfold resolver_run at h
  cases hgl : global_loader (local_providers σ func) with
  | some l =>
      simp only [hgl] at h
      obtain ⟨p, hp, he⟩ :=
        last_loop_loader_mem (local_providers σ func) (global_loader_ne_nil hgl)
      refine ⟨p, hp, ?_⟩
      rw [he] at h
      simpa using h.symm
  | none =>
      simp only [hgl] at h
      cases hft : first_true env (local_providers σ func) with
      | some p =>
          simp only [hft] at h
          exact ⟨p, first_true_mem hft, by simpa using h.symm⟩
      | none => simp [hft] at h

/-- Witness for the amended C4: the resolver's NULL return is the selected
loader's own result. -/
theorem c4_amended_resolver_returns_selected_loader_result_witness :
    resolver_run c4σ c4f c4env c4ld = ResolverOutcome.ret none ∧
    ∃ p ∈ local_providers c4σ c4f, (none : Option Nat) = c4ld p.loader :=
  ⟨by rfl,
   c4_amended_resolver_returns_selected_loader_result c4σ c4f c4env c4ld none (by rfl)⟩

/-- Witness for C10 at a concrete two-function set. -/
theorem bootstrap_override_idempotent_witness :
    (lookupFn c10σ "glGetString").isSome ∧
    fixup_bootstrap_function (fixup_bootstrap_function c10σ "glGetString") "glGetString"
      = fixup_bootstrap_function c10σ "glGetString" ∧
    lookupFn (fixup_bootstrap_function c10σ "glGetString") "glOther"
      = lookupFn c10σ "glOther" :=
  ⟨by decide,
   (bootstrap_override_idempotent c10σ "glGetString" (by decide)).1,
   (bootstrap_override_idempotent c10σ "glGetString" (by decide)).2 "glOther" (by decide)⟩
